import Mathlib

/-!
Verification development for the E-Salinify frontend's sign-language video
translator.  The definitions below are a shallow embedding of
`src/services/SignLanguageProcessor.ts`:

* `stepFrame` embeds the body of the per-frame decoding loop of
  `processVideo` (lines 132–153): match on the classifier result, run-length
  update, commit check, commit/reset.
* `extractFrames` embeds `extractFrames` (lines 28–60); the thumbnail
  extractor `VideoThumbnails.getThumbnailAsync` is an oracle
  `thumb : Nat → Option String` from a time offset in milliseconds to a frame
  URI (`none` models the thrown error that makes the loop `break`).
* `processFrame` embeds `processFrame` (lines 68–97): the fallible body
  (file read, future preprocessing/inference) is an oracle returning
  `Except String (Option Pred)`; the surrounding `try`/`catch` is `tryFrame`,
  which maps a thrown error to `null`.  The shipped body `processFrameBody`
  reads the frame file and then returns `null` (line 92).
* `processVideo` embeds `processVideo` (lines 105–169) and additionally
  records an `Event` trace: each call of `this.processFrame`, each
  `onProgress` invocation, and each `FileSystem.deleteAsync` attempt, in
  program order.  `Math.floor((i / frames.length) * 60)` is embedded as the
  natural-number floor division `i * 60 / n`; no theorem below depends on the
  exact per-frame percentage value, only on its monotonicity and bounds,
  which hold for the floating-point computation as well.
-/

namespace SignLang

/-- A per-frame classifier prediction, `{ letter: string; confidence: number }`
in the source (`processFrame`'s non-null result type). -/
structure Pred where
  letter : String
  confidence : ℚ
deriving DecidableEq

/-- Embeds `CONFIDENCE_THRESHOLD = 0.8` (line 19).  The decoding loop never
reads this constant. -/
def CONFIDENCE_THRESHOLD : ℚ := 8 / 10

/-- Embeds `CONSISTENCY_FRAMES = 15` (line 20). -/
def CONSISTENCY_FRAMES : Nat := 15

/-- Embeds `FRAME_INTERVAL_MS = 33` (line 21). -/
def FRAME_INTERVAL_MS : Nat := 33

/-- The mutable locals of the decoding loop in `processVideo` (lines
125–127): `translatedText`, `lastPredictedLetter`, `framesConsistent`. -/
structure DecodeState where
  translatedText : String
  lastPredictedLetter : String
  framesConsistent : Nat
deriving DecidableEq

/-- The loop locals as initialised at lines 125–127: empty text, empty last
letter, zero consistent frames. -/
def initState : DecodeState := ⟨"", "", 0⟩

/-- One iteration of the decoding part of the frame loop (lines 132–153 of
`processVideo`): a `null` result skips the whole block; otherwise the run
length is incremented on a matching letter or reset to `0` on a differing
letter, and a commit appends the letter and resets the counter exactly when
the counter equals `consistency` (the source uses the constant
`CONSISTENCY_FRAMES` here; it is a parameter so that the specification's
scenarios with other `requiredRun` values can be stated). -/
def stepFrame (consistency : Nat) (s : DecodeState) (result : Option Pred) :
    DecodeState :=
  match result with
  | none => s
  | some p =>
    let s1 : DecodeState :=
      if p.letter = s.lastPredictedLetter then
        { s with framesConsistent := s.framesConsistent + 1 }
      else
        { s with framesConsistent := 0, lastPredictedLetter := p.letter }
    if s1.framesConsistent = consistency then
      { s1 with translatedText := s1.translatedText ++ p.letter,
                framesConsistent := 0 }
    else s1

/-- Runs the decoding loop over a whole sequence of per-frame classifier
results, starting from the fresh state of lines 125–127. -/
def decodeFrames (consistency : Nat) (results : List (Option Pred)) :
    DecodeState :=
  results.foldl (stepFrame consistency) initState

/-- Concatenation of `c` copies of a string; `repStr c L` is the transcript
produced by `c` commits of the letter `L`. -/
def repStr : Nat → String → String
  | 0, _ => ""
  | c + 1, L => L ++ repStr c L

theorem stepFrame_none (consistency : Nat) (s : DecodeState) :
    stepFrame consistency s none = s := rfl

theorem repStr_succ (c : Nat) (L : String) :
    repStr (c + 1) L = L ++ repStr c L := rfl

theorem repStr_length (c : Nat) (L : String) :
    (repStr c L).length = c * L.length := by
  induction c with
  | zero => simp [repStr]
  | succ c ih => simp [repStr, String.length_append, ih, Nat.succ_mul]; ring

theorem length_zero_eq_empty {s : String} (h : s.length = 0) : s = "" := by
  apply String.ext
  have hd : s.data.length = 0 := h
  simpa using List.length_eq_zero.mp hd

theorem repStr_ne_empty {c : Nat} {L : String} (hc : c ≠ 0) (hL : L ≠ "") :
    repStr c L ≠ "" := by
  intro h
  have hlen : (repStr c L).length = 0 := by rw [h]; rfl
  rw [repStr_length] at hlen
  rcases Nat.mul_eq_zero.mp hlen with h0 | h0
  · exact hc h0
  · exact hL (length_zero_eq_empty h0)

/-- Decoder invariant for a run of frames that all carry the letter already
recorded in `lastPredictedLetter`: from a counter value `r < n` the fold
commits `(r + length) / n` further copies of `L` and leaves the counter at
`(r + length) % n`. -/
theorem foldl_same_letter (n : Nat) (hn : 0 < n) (L : String) :
    ∀ (ps : List Pred) (t : String) (r : Nat), r < n →
      (∀ p ∈ ps, p.letter = L) →
      List.foldl (stepFrame n) ⟨t, L, r⟩ (ps.map some) =
        ⟨t ++ repStr ((r + ps.length) / n) L, L, (r + ps.length) % n⟩ := by
  intro ps
  induction ps with
  | nil =>
    intro t r hr _
    simp [Nat.div_eq_of_lt hr, Nat.mod_eq_of_lt hr, repStr]
  | cons p ps ih =>
    intro t r hr hps
    have hpL : p.letter = L := hps p (List.mem_cons_self p ps)
    have hrest : ∀ q ∈ ps, q.letter = L := fun q hq => hps q (List.mem_cons_of_mem p hq)
    simp only [List.map_cons, List.foldl_cons]
    have hstep : stepFrame n ⟨t, L, r⟩ (some p) =
        if r + 1 = n then (⟨t ++ L, L, 0⟩ : DecodeState)
        else ⟨t, L, r + 1⟩ := by
      simp only [stepFrame, hpL]
      split <;> simp_all
    rw [hstep]
    by_cases hcommit : r + 1 = n
    · rw [if_pos hcommit]
      rw [ih (t ++ L) 0 hn hrest]
      have harith : r + (ps.length + 1) = ps.length + n := by omega
      have hdiv : (r + (ps.length + 1)) / n = ps.length / n + 1 := by
        rw [harith, Nat.add_div_right _ hn]
      have hmod : (r + (ps.length + 1)) % n = ps.length % n := by
        rw [harith, Nat.add_mod_right]
      simp only [List.length_cons, hdiv, hmod, Nat.zero_add]
      rw [repStr_succ, ← String.append_assoc]
    · rw [if_neg hcommit]
      have hr1 : r + 1 < n := Nat.lt_of_le_of_ne (Nat.succ_le_of_lt hr) hcommit
      rw [ih t (r + 1) hr1 hrest]
      have : r + 1 + ps.length = r + (ps.length + 1) := by omega
      simp only [List.length_cons, this]

theorem empty_append_str (s : String) : "" ++ s = s := by
  apply String.ext
  simp [String.data_append]

/-- Decoding a fresh-state run of `k` frames that all carry the same non-empty
letter `L` (arbitrary confidences, which the loop ignores): the transcript is
`(k - 1) / CONSISTENCY_FRAMES` copies of `L`, the last letter is `L` and the
counter ends at `(k - 1) % CONSISTENCY_FRAMES`. -/
theorem singleRun_state (k : Nat) (hk : 1 ≤ k) (L : String) (hL : L ≠ "")
    (conf : Nat → ℚ) :
    decodeFrames CONSISTENCY_FRAMES ((List.range k).map fun i => some ⟨L, conf i⟩) =
      ⟨repStr ((k - 1) / CONSISTENCY_FRAMES) L, L, (k - 1) % CONSISTENCY_FRAMES⟩ := by
  obtain ⟨j, rfl⟩ : ∃ j, k = j + 1 := ⟨k - 1, by omega⟩
  rw [List.range_succ_eq_map, List.map_cons, List.map_map]
  unfold decodeFrames
  rw [List.foldl_cons]
  have hfirst : stepFrame CONSISTENCY_FRAMES initState (some ⟨L, conf 0⟩) =
      ⟨"", L, 0⟩ := by
    simp only [stepFrame, initState]
    rw [if_neg hL]
    norm_num [CONSISTENCY_FRAMES]
  rw [hfirst]
  have hmaps : (List.range j).map ((fun i => some (⟨L, conf i⟩ : Pred)) ∘ Nat.succ) =
      ((List.range j).map fun i => (⟨L, conf (i + 1)⟩ : Pred)).map some := by
    rw [List.map_map]
    rfl
  rw [hmaps, foldl_same_letter CONSISTENCY_FRAMES (by norm_num [CONSISTENCY_FRAMES]) L _ "" 0
      (by norm_num [CONSISTENCY_FRAMES]) ?_]
  · simp [empty_append_str]
  · intro p hp
    obtain ⟨i, _, rfl⟩ := List.mem_map.mp hp
    rfl

/-- C1 (amended).  Feeding the decoder, from a fresh state, `k` consecutive
frames of a single non-empty letter `L` with confidences at or above the
threshold (which the loop in fact never consults): a commit fires if and only
if `k ≥ CONSISTENCY_FRAMES + 1` (not `k ≥ CONSISTENCY_FRAMES` as claimed),
exactly `(k - 1) / CONSISTENCY_FRAMES` commits fire (not
`k / CONSISTENCY_FRAMES`), and each commit resets the run counter, leaving it
at `(k - 1) % CONSISTENCY_FRAMES`.  The off-by-one arises because the frame
that changes the label resets the counter to `0` rather than `1`. -/
theorem C1_single_label_run (k : Nat) (L : String) (hL : L ≠ "")
    (conf : Nat → ℚ) (hconf : ∀ i, CONFIDENCE_THRESHOLD ≤ conf i) :
    (decodeFrames CONSISTENCY_FRAMES
        ((List.range k).map fun i => some ⟨L, conf i⟩)).translatedText =
      repStr ((k - 1) / CONSISTENCY_FRAMES) L
    ∧ ((decodeFrames CONSISTENCY_FRAMES
        ((List.range k).map fun i => some ⟨L, conf i⟩)).translatedText ≠ ""
        ↔ CONSISTENCY_FRAMES + 1 ≤ k)
    ∧ (1 ≤ k →
        (decodeFrames CONSISTENCY_FRAMES
          ((List.range k).map fun i => some ⟨L, conf i⟩)).framesConsistent =
        (k - 1) % CONSISTENCY_FRAMES) := by
  rcases Nat.eq_zero_or_pos k with hk | hk
  · subst hk
    refine ⟨rfl, ?_, by omega⟩
    simp [decodeFrames, initState, repStr, CONSISTENCY_FRAMES]
  · rw [singleRun_state k hk L hL conf]
    refine ⟨rfl, ?_, fun _ => rfl⟩
    constructor
    · intro hne
      by_contra hlt
      have hc0 : (k - 1) / CONSISTENCY_FRAMES = 0 := by
        apply Nat.div_eq_of_lt
        simp only [CONSISTENCY_FRAMES] at hlt ⊢
        omega
      rw [hc0] at hne
      exact hne rfl
    · intro hge
      apply repStr_ne_empty ?_ hL
      have : CONSISTENCY_FRAMES ≤ k - 1 := by omega
      have h1 : 1 ≤ (k - 1) / CONSISTENCY_FRAMES :=
        (Nat.le_div_iff_mul_le (by norm_num [CONSISTENCY_FRAMES])).mpr (by omega)
      omega

/-- C1 counterexample: fifteen consecutive frames of the letter `A` at
confidence `0.9 ≥ 0.8`, i.e. a qualifying run of exactly
`k = requiredRun = CONSISTENCY_FRAMES` frames, commit nothing — the claim
predicts exactly one commit. -/
theorem C1_counterexample :
    (decodeFrames CONSISTENCY_FRAMES
        (List.replicate CONSISTENCY_FRAMES (some ⟨"A", 9/10⟩))).translatedText = ""
    ∧ CONFIDENCE_THRESHOLD ≤ 9/10 ∧ "A" ≠ "" := by
  refine ⟨by decide, ?_, by decide⟩
  norm_num [CONFIDENCE_THRESHOLD]

/-- C1 witness instance: sixteen qualifying frames of `A` commit exactly
once. -/
theorem C1_witness :
    (decodeFrames CONSISTENCY_FRAMES
        ((List.range 16).map fun i => some ⟨"A", 9/10⟩)).translatedText =
      repStr 1 "A" := by
  have h := C1_single_label_run 16 "A" (by decide) (fun _ => 9/10)
    (fun _ => by norm_num [CONFIDENCE_THRESHOLD])
  calc (decodeFrames CONSISTENCY_FRAMES
        ((List.range 16).map fun i => some ⟨"A", 9/10⟩)).translatedText
      = repStr ((16 - 1) / CONSISTENCY_FRAMES) "A" := h.1
    _ = repStr 1 "A" := by norm_num [CONSISTENCY_FRAMES]

/-- C2 (amended).  A `null` classifier result leaves the decoder state
entirely unchanged — it does not reset the run counter — and the decoder
never consults the confidence value: two predictions with the same label are
processed identically whatever their confidences, so a sub-threshold frame is
not treated as non-informative either. -/
theorem C2_null_and_confidence (consistency : Nat) (s : DecodeState)
    (p q : Pred) (hpq : p.letter = q.letter) :
    stepFrame consistency s none = s
    ∧ stepFrame consistency s (some p) = stepFrame consistency s (some q) := by
  refine ⟨rfl, ?_⟩
  simp only [stepFrame, hpq]

/-- C2 witness instance: the no-op on `none` and the confidence-blindness of
the step, at a concrete state and pair of predictions differing only in
confidence. -/
theorem C2_witness :
    stepFrame CONSISTENCY_FRAMES ⟨"", "A", 1⟩ none = ⟨"", "A", 1⟩
    ∧ stepFrame CONSISTENCY_FRAMES ⟨"", "A", 1⟩ (some ⟨"A", 9/10⟩) =
        stepFrame CONSISTENCY_FRAMES ⟨"", "A", 1⟩ (some ⟨"A", 1/2⟩) :=
  C2_null_and_confidence CONSISTENCY_FRAMES ⟨"", "A", 1⟩ ⟨"A", 9/10⟩ ⟨"A", 1/2⟩ rfl

/-- C2 counterexample: after two qualifying `A` frames the counter is `1`; a
`None` third frame leaves it at `1` instead of resetting it to `0` as
claimed, and a sub-threshold (`0.5 < 0.8`) same-label second frame likewise
leaves the counter at `1` instead of `0`. -/
theorem C2_counterexample :
    (decodeFrames CONSISTENCY_FRAMES
        [some ⟨"A", 9/10⟩, some ⟨"A", 9/10⟩, none]).framesConsistent = 1
    ∧ (decodeFrames CONSISTENCY_FRAMES
        [some ⟨"A", 9/10⟩, some ⟨"A", 1/2⟩]).framesConsistent = 1
    ∧ (1 : ℚ)/2 < CONFIDENCE_THRESHOLD := by
  refine ⟨by decide, by decide, ?_⟩
  norm_num [CONFIDENCE_THRESHOLD]

/-- The nine-frame scenario of the specification: three `A` frames followed
by six `B` frames, all at confidence `0.9`. -/
def scenarioFrames : List (Option Pred) :=
  [some ⟨"A", 9/10⟩, some ⟨"A", 9/10⟩, some ⟨"A", 9/10⟩,
   some ⟨"B", 9/10⟩, some ⟨"B", 9/10⟩, some ⟨"B", 9/10⟩,
   some ⟨"B", 9/10⟩, some ⟨"B", 9/10⟩, some ⟨"B", 9/10⟩]

/-- C3 (amended).  When a prediction's label differs from the last-seen
label, the decoder sets the last-seen label to the new label and the run
length to `0` — the changed frame itself does not count toward the run.
Consequently the specification's scenario (threshold `0.8`, required run `3`,
three `A` frames then six `B` frames at confidence `0.9`) yields the
transcript `"B"`: the three-frame `A` run and the first three `B` frames
commit nothing, and the six-frame `B` run commits once. -/
theorem C3_label_change (consistency : Nat) (hc : 0 < consistency)
    (s : DecodeState) (p : Pred) (hdiff : p.letter ≠ s.lastPredictedLetter) :
    stepFrame consistency s (some p) =
      { s with lastPredictedLetter := p.letter, framesConsistent := 0 }
    ∧ (decodeFrames 3 scenarioFrames).translatedText = "B" := by
  refine ⟨?_, by decide⟩
  simp only [stepFrame]
  rw [if_neg hdiff]
  exact if_neg (by simp; omega)

/-- C3 witness instance: a `B` frame arriving while the last letter is `A`
resets the counter to zero and records `B`, and the scenario transcript is
`"B"`. -/
theorem C3_witness :
    stepFrame CONSISTENCY_FRAMES ⟨"", "A", 2⟩ (some ⟨"B", 9/10⟩) =
      ⟨"", "B", 0⟩
    ∧ (decodeFrames 3 scenarioFrames).translatedText = "B" :=
  C3_label_change CONSISTENCY_FRAMES (by norm_num [CONSISTENCY_FRAMES])
    ⟨"", "A", 2⟩ ⟨"B", 9/10⟩ (by decide)

/-- C3 counterexample: the specification's scenario produces the transcript
`"B"`, not `"ABB"`, and the label-change frame leaves the run counter at `0`,
not `1`. -/
theorem C3_counterexample :
    (decodeFrames 3 scenarioFrames).translatedText = "B"
    ∧ "B" ≠ "ABB"
    ∧ (stepFrame CONSISTENCY_FRAMES ⟨"", "A", 5⟩ (some ⟨"B", 9/10⟩)).framesConsistent = 0 := by
  refine ⟨by decide, by decide, by decide⟩

/-- Embeds `const frameCount = 100` (line 36 of `extractFrames`). -/
def frameCount : Nat := 100

/-- The thumbnail loop of `extractFrames` (lines 38–52): starting at index
`i` with `fuel` iterations left, request a thumbnail at `i * FRAME_INTERVAL_MS`
milliseconds; on success push the URI and continue, on failure `break`. -/
def extractFramesGo (thumb : Nat → Option String) : Nat → Nat → List String
  | _, 0 => []
  | i, fuel + 1 =>
    match thumb (i * FRAME_INTERVAL_MS) with
    | some uri => uri :: extractFramesGo thumb (i + 1) fuel
    | none => []

/-- Embeds `extractFrames` (lines 28–60): up to `frameCount` thumbnails at
successive `FRAME_INTERVAL_MS` offsets, stopping at the first failure. -/
def extractFrames (thumb : Nat → Option String) : List String :=
  extractFramesGo thumb 0 frameCount

/-- Embeds the `try`/`catch` wrapping the whole body of `processFrame`
(lines 72–96): a thrown error is caught and becomes the `null` result. -/
def tryFrame (body : Except String (Option Pred)) : Option Pred :=
  match body with
  | .ok r => r
  | .error _ => none

/-- Embeds the shipped body of `processFrame` (lines 85–92): read the frame
file (the `FileSystem.readAsStringAsync` oracle `read`), then return `null`
— the preprocessing/inference placeholder of line 92. -/
def processFrameBody (read : String → Except String String) (uri : String) :
    Except String (Option Pred) :=
  match read uri with
  | .ok _ => .ok none
  | .error e => .error e

/-- Embeds `processFrame` (lines 68–97): the fallible body guarded by the
catch-all handler. -/
def processFrame (read : String → Except String String) (uri : String) :
    Option Pred :=
  tryFrame (processFrameBody read uri)

/-- Observable actions of one `processVideo` run, in program order: a
`this.processFrame` call for frame `i`, an `onProgress(percent,
currentLetter, currentText)` invocation, and a `FileSystem.deleteAsync`
attempt for frame `i` whose success flag is `ok` (line 157; its outcome is
ignored by the code). -/
inductive Event where
  | classify (i : Nat)
  | progress (percent : Nat) (currentLetter : Option String) (currentText : String)
  | delete (i : Nat) (ok : Bool)
deriving DecidableEq

/-- The frame loop of `processVideo` (lines 129–161) over the frames still
to process, with `i` the index of the next frame and `n` the total frame
count: classify, decode and report progress on a non-null result, then
attempt deletion; returns the final loop state and the emitted events. -/
def frameLoop (n : Nat) (classifyF : String → Except String (Option Pred))
    (delOk : Nat → Bool) : Nat → List String → DecodeState →
    DecodeState × List Event
  | _, [], s => (s, [])
  | i, uri :: rest, s =>
    match tryFrame (classifyF uri) with
    | none =>
      let r := frameLoop n classifyF delOk (i + 1) rest s
      (r.1, Event.classify i :: Event.delete i (delOk i) :: r.2)
    | some p =>
      let s1 := stepFrame CONSISTENCY_FRAMES s (some p)
      let r := frameLoop n classifyF delOk (i + 1) rest s1
      (r.1, Event.classify i ::
        Event.progress (30 + i * 60 / n) (some p.letter) s1.translatedText ::
        Event.delete i (delOk i) :: r.2)

/-- Embeds `processVideo` (lines 105–169): the model-loaded precondition, the
10% progress call, frame extraction, the empty-input check, the 30% progress
call, the frame loop, and the final 100% call with the finished transcript.
`classifyF` is the fallible body of `this.processFrame` (caught per frame via
`tryFrame`), `delOk` the outcome oracle of `FileSystem.deleteAsync`. -/
def processVideo (modelLoaded : Bool) (thumb : Nat → Option String)
    (classifyF : String → Except String (Option Pred)) (delOk : Nat → Bool) :
    Except String String × List Event :=
  if modelLoaded = false then (.error "Model not loaded", [])
  else
    let frames := extractFrames thumb
    if frames.length = 0 then
      (.error "No frames extracted from video",
       [Event.progress 10 none "Extracting frames..."])
    else
      let r := frameLoop frames.length classifyF delOk 0 frames initState
      (.ok r.1.translatedText,
       Event.progress 10 none "Extracting frames..." ::
       Event.progress 30 none "Processing frames..." ::
       (r.2 ++ [Event.progress 100 none r.1.translatedText]))

theorem str_append_empty (s : String) : s ++ "" = s := by
  apply String.ext
  simp [String.data_append]

theorem extractFramesGo_length_le (thumb : Nat → Option String) :
    ∀ (fuel i : Nat), (extractFramesGo thumb i fuel).length ≤ fuel := by
  intro fuel
  induction fuel with
  | zero => intro i; simp [extractFramesGo]
  | succ fuel ih =>
    intro i
    cases hthumb : thumb (i * FRAME_INTERVAL_MS) with
    | none => simp [extractFramesGo, hthumb]
    | some uri =>
      simp only [extractFramesGo, hthumb, List.length_cons]
      exact Nat.succ_le_succ (ih (i + 1))

theorem extractFramesGo_getElem (thumb : Nat → Option String) :
    ∀ (fuel i j : Nat), j < (extractFramesGo thumb i fuel).length →
      (extractFramesGo thumb i fuel)[j]? = thumb ((i + j) * FRAME_INTERVAL_MS) := by
  intro fuel
  induction fuel with
  | zero => intro i j h; simp [extractFramesGo] at h
  | succ fuel ih =>
    intro i j h
    cases hthumb : thumb (i * FRAME_INTERVAL_MS) with
    | none =>
      rw [extractFramesGo, hthumb] at h
      simp at h
    | some uri =>
      rw [extractFramesGo, hthumb] at h ⊢
      cases j with
      | zero => simpa using hthumb.symm
      | succ j =>
        simp only [List.length_cons, Nat.succ_lt_succ_iff] at h
        have harg : i + 1 + j = i + (j + 1) := by omega
        simpa [harg] using ih (i + 1) j h

theorem extractFramesGo_stop (thumb : Nat → Option String) :
    ∀ (fuel i : Nat), (extractFramesGo thumb i fuel).length < fuel →
      thumb ((i + (extractFramesGo thumb i fuel).length) * FRAME_INTERVAL_MS) = none := by
  intro fuel
  induction fuel with
  | zero => intro i h; omega
  | succ fuel ih =>
    intro i h
    cases hthumb : thumb (i * FRAME_INTERVAL_MS) with
    | none =>
      rw [extractFramesGo, hthumb]
      simpa using hthumb
    | some uri =>
      rw [extractFramesGo, hthumb] at h ⊢
      simp only [List.length_cons, Nat.succ_lt_succ_iff] at h
      have := ih (i + 1) h
      have harg : i + 1 + (extractFramesGo thumb (i + 1) fuel).length =
          i + ((extractFramesGo thumb (i + 1) fuel).length + 1) := by omega
      rw [harg] at this
      simpa using this

/-- C9.  For every thumbnail oracle, `extractFrames` yields at most 100
frames; the `j`-th frame is the thumbnail sampled at the fixed offset
`j * FRAME_INTERVAL_MS` (33 ms steps, with every earlier offset also
succeeding), and when fewer than 100 frames are returned the next sampled
offset is the first thumbnail failure. -/
theorem C9_extractFrames_bounded (thumb : Nat → Option String) :
    (extractFrames thumb).length ≤ 100
    ∧ (∀ j, j < (extractFrames thumb).length →
        (extractFrames thumb)[j]? = thumb (j * FRAME_INTERVAL_MS))
    ∧ ((extractFrames thumb).length < 100 →
        thumb ((extractFrames thumb).length * FRAME_INTERVAL_MS) = none) := by
  refine ⟨extractFramesGo_length_le thumb frameCount 0, ?_, ?_⟩
  · intro j hj
    simpa using extractFramesGo_getElem thumb frameCount 0 j hj
  · intro h
    simpa using extractFramesGo_stop thumb frameCount 0 h

/-- C9 witness instance: an oracle succeeding only below 40 ms yields two
frames, the first being the 0 ms thumbnail, with the 66 ms sample failing. -/
theorem C9_witness :
    (extractFrames (fun t => if t < 40 then some "u" else none)).length ≤ 100
    ∧ (extractFrames (fun t => if t < 40 then some "u" else none))[0]? =
        (fun t : Nat => if t < 40 then some "u" else none) (0 * FRAME_INTERVAL_MS)
    ∧ (fun t : Nat => if t < 40 then some "u" else none)
        ((extractFrames (fun t => if t < 40 then some "u" else none)).length *
          FRAME_INTERVAL_MS) = none :=
  ⟨(C9_extractFrames_bounded (fun t => if t < 40 then some "u" else none)).1,
   (C9_extractFrames_bounded (fun t => if t < 40 then some "u" else none)).2.1 0
     (by decide),
   (C9_extractFrames_bounded (fun t => if t < 40 then some "u" else none)).2.2
     (by decide)⟩

/-- Unfolding of a non-cancelled, non-empty `processVideo` run: success with
the loop's transcript, and the trace `10%`, `30%`, the per-frame events, and
the final `100%` call. -/
theorem processVideo_pos (thumb : Nat → Option String)
    (classifyF : String → Except String (Option Pred)) (delOk : Nat → Bool)
    (hne : extractFrames thumb ≠ []) :
    processVideo true thumb classifyF delOk =
      (.ok (frameLoop (extractFrames thumb).length classifyF delOk 0
              (extractFrames thumb) initState).1.translatedText,
       Event.progress 10 none "Extracting frames..." ::
       Event.progress 30 none "Processing frames..." ::
       ((frameLoop (extractFrames thumb).length classifyF delOk 0
           (extractFrames thumb) initState).2 ++
        [Event.progress 100 none
          (frameLoop (extractFrames thumb).length classifyF delOk 0
            (extractFrames thumb) initState).1.translatedText])) := by
  unfold processVideo
  simp [List.length_eq_zero, hne]

/-- C4.  When the frame source yields zero frames, `processVideo` fails with
the empty-input error, and no frame is ever classified: the trace holds no
`classify` event (only the initial 10% progress call precedes the failure). -/
theorem C4_empty_input (thumb : Nat → Option String)
    (classifyF : String → Except String (Option Pred)) (delOk : Nat → Bool)
    (h : extractFrames thumb = []) :
    (processVideo true thumb classifyF delOk).1 =
      .error "No frames extracted from video"
    ∧ ∀ i, Event.classify i ∉ (processVideo true thumb classifyF delOk).2 := by
  unfold processVideo
  simp [h]

/-- C4 witness instance: an oracle that fails at once produces zero frames,
the empty-input error, and no classification of frame 0. -/
theorem C4_witness :
    (processVideo true (fun _ => none) (fun _ => .ok none) (fun _ => true)).1 =
      .error "No frames extracted from video"
    ∧ Event.classify 0 ∉
        (processVideo true (fun _ => none) (fun _ => .ok none) (fun _ => true)).2 :=
  ⟨(C4_empty_input (fun _ => none) (fun _ => .ok none) (fun _ => true) rfl).1,
   (C4_empty_input (fun _ => none) (fun _ => .ok none) (fun _ => true) rfl).2 0⟩

theorem frameLoop_state_of_none (n : Nat)
    (classifyF : String → Except String (Option Pred)) (delOk : Nat → Bool)
    (hall : ∀ u, tryFrame (classifyF u) = none) :
    ∀ (rest : List String) (i : Nat) (s : DecodeState),
      (frameLoop n classifyF delOk i rest s).1 = s := by
  intro rest
  induction rest with
  | nil => intro i s; rfl
  | cons uri rest ih =>
    intro i s
    rw [frameLoop, hall uri]
    exact ih (i + 1) s

/-- C10.  The shipped per-frame classifier returns `null` for every frame
(line 92 on a successful read, the catch handler otherwise), so every
successful `processVideo` run — any video with at least one extracted frame —
returns the empty transcript. -/
theorem C10_shipped_always_empty (thumb : Nat → Option String)
    (read : String → Except String String) (delOk : Nat → Bool)
    (hne : extractFrames thumb ≠ []) :
    (processVideo true thumb (processFrameBody read) delOk).1 = .ok "" := by
  rw [processVideo_pos thumb (processFrameBody read) delOk hne]
  have hall : ∀ u, tryFrame (processFrameBody read u) = none := by
    intro u
    unfold tryFrame processFrameBody
    cases read u <;> rfl
  rw [frameLoop_state_of_none _ _ _ hall]
  rfl

/-- C10 witness instance: a one-frame video with a successful file read
decodes to the empty transcript. -/
theorem C10_witness :
    (processVideo true (fun t => if t = 0 then some "u" else none)
        (processFrameBody (fun _ => .ok "x")) (fun _ => true)).1 = .ok "" :=
  C10_shipped_always_empty _ _ _ (by decide)

/-- C5.  Only the session-level preconditions fail the caller: an unloaded
model is rejected before anything runs (empty trace), a per-frame classifier
error is absorbed into a `null` prediction by the catch inside
`processFrame`, a session with at least one frame succeeds for every
classifier behaviour whatsoever, and no step of the decoding loop ever
removes already-committed symbols — the transcript only ever grows by
appending. -/
theorem C5_fault_containment (thumb : Nat → Option String)
    (classifyF : String → Except String (Option Pred)) (delOk : Nat → Bool) :
    processVideo false thumb classifyF delOk = (.error "Model not loaded", [])
    ∧ (∀ uri e, classifyF uri = .error e → tryFrame (classifyF uri) = none)
    ∧ (extractFrames thumb ≠ [] →
        ∃ t, (processVideo true thumb classifyF delOk).1 = .ok t)
    ∧ (∀ (consistency : Nat) (s : DecodeState) (r : Option Pred),
        ∃ u, (stepFrame consistency s r).translatedText = s.translatedText ++ u) := by
  refine ⟨rfl, ?_, ?_, ?_⟩
  · intro uri e h
    rw [h]
    rfl
  · intro hne
    rw [processVideo_pos thumb classifyF delOk hne]
    exact ⟨_, rfl⟩
  · intro consistency s r
    rcases r with _ | p
    · exact ⟨"", (str_append_empty _).symm⟩
    · simp only [stepFrame]
      by_cases h1 : p.letter = s.lastPredictedLetter
      · rw [if_pos h1]
        split
        · exact ⟨p.letter, rfl⟩
        · exact ⟨"", (str_append_empty _).symm⟩
      · rw [if_neg h1]
        split
        · exact ⟨p.letter, rfl⟩
        · exact ⟨"", (str_append_empty _).symm⟩

/-- C5 witness instance: with a classifier that throws on every frame, the
unloaded-model error, the local absorption of the thrown error, the success
of a one-frame session, and the append-only transcript step, all at concrete
inputs. -/
theorem C5_witness :
    processVideo false (fun t => if t = 0 then some "v" else none)
        (fun _ => .error "boom") (fun _ => true) = (.error "Model not loaded", [])
    ∧ tryFrame ((fun _ => (.error "boom" : Except String (Option Pred))) "v") = none
    ∧ (∃ t, (processVideo true (fun t => if t = 0 then some "v" else none)
        (fun _ => .error "boom") (fun _ => true)).1 = .ok t)
    ∧ ∃ u, (stepFrame CONSISTENCY_FRAMES initState none).translatedText =
        initState.translatedText ++ u :=
  ⟨(C5_fault_containment (fun t => if t = 0 then some "v" else none)
      (fun _ => .error "boom") (fun _ => true)).1,
   (C5_fault_containment (fun t => if t = 0 then some "v" else none)
      (fun _ => .error "boom") (fun _ => true)).2.1 "v" "boom" rfl,
   (C5_fault_containment (fun t => if t = 0 then some "v" else none)
      (fun _ => .error "boom") (fun _ => true)).2.2.1 (by decide),
   (C5_fault_containment (fun t => if t = 0 then some "v" else none)
      (fun _ => .error "boom") (fun _ => true)).2.2.2 CONSISTENCY_FRAMES initState none⟩

/-- The percentages carried by the `onProgress` events of a trace, in
order. -/
def percents (evs : List Event) : List Nat :=
  evs.filterMap fun e =>
    match e with
    | .progress p _ _ => some p
    | _ => none

/-- Tests whether an event is the deletion attempt of frame `j`. -/
def isDeleteFor (j : Nat) : Event → Bool
  | .delete i _ => i == j
  | _ => false

theorem isDeleteFor_classify (j i : Nat) :
    isDeleteFor j (Event.classify i) = false := rfl

theorem isDeleteFor_progress (j p : Nat) (cl : Option String) (t : String) :
    isDeleteFor j (Event.progress p cl t) = false := rfl

theorem isDeleteFor_delete (j i : Nat) (b : Bool) :
    isDeleteFor j (Event.delete i b) = (i == j) := rfl

theorem frameLoop_cons_none (n : Nat)
    (classifyF : String → Except String (Option Pred)) (delOk : Nat → Bool)
    (i : Nat) (uri : String) (rest : List String) (s : DecodeState)
    (h : tryFrame (classifyF uri) = none) :
    frameLoop n classifyF delOk i (uri :: rest) s =
      ((frameLoop n classifyF delOk (i + 1) rest s).1,
       Event.classify i :: Event.delete i (delOk i) ::
         (frameLoop n classifyF delOk (i + 1) rest s).2) := by
  rw [frameLoop, h]

theorem frameLoop_cons_some (n : Nat)
    (classifyF : String → Except String (Option Pred)) (delOk : Nat → Bool)
    (i : Nat) (uri : String) (rest : List String) (s : DecodeState) (p : Pred)
    (h : tryFrame (classifyF uri) = some p) :
    frameLoop n classifyF delOk i (uri :: rest) s =
      ((frameLoop n classifyF delOk (i + 1) rest
          (stepFrame CONSISTENCY_FRAMES s (some p))).1,
       Event.classify i ::
       Event.progress (30 + i * 60 / n) (some p.letter)
         (stepFrame CONSISTENCY_FRAMES s (some p)).translatedText ::
       Event.delete i (delOk i) ::
         (frameLoop n classifyF delOk (i + 1) rest
           (stepFrame CONSISTENCY_FRAMES s (some p))).2) := by
  rw [frameLoop, h]

theorem frameLoop_percents_bounds (n : Nat)
    (classifyF : String → Except String (Option Pred)) (delOk : Nat → Bool) :
    ∀ (rest : List String) (i : Nat) (s : DecodeState), i + rest.length ≤ n →
      ∀ q ∈ percents (frameLoop n classifyF delOk i rest s).2,
        30 + i * 60 / n ≤ q ∧ q ≤ 89 := by
  intro rest
  induction rest with
  | nil =>
    intro i s _ q hq
    simp [frameLoop, percents] at hq
  | cons uri rest ih =>
    intro i s hle q hq
    have hin : i < n := by
      simp only [List.length_cons] at hle
      omega
    have hmono : 30 + i * 60 / n ≤ 30 + (i + 1) * 60 / n := by
      have h60 : i * 60 ≤ (i + 1) * 60 := by omega
      have := Nat.div_le_div_right (c := n) h60
      omega
    have hle' : i + 1 + rest.length ≤ n := by
      simp only [List.length_cons] at hle
      omega
    cases hcl : tryFrame (classifyF uri) with
    | none =>
      rw [frameLoop_cons_none n classifyF delOk i uri rest s hcl] at hq
      simp only [percents, List.filterMap_cons] at hq
      have := ih (i + 1) s hle' q hq
      exact ⟨le_trans hmono this.1, this.2⟩
    | some p =>
      rw [frameLoop_cons_some n classifyF delOk i uri rest s p hcl] at hq
      simp only [percents, List.filterMap_cons] at hq
      rcases List.mem_cons.mp hq with hq | hq
      · subst hq
        refine ⟨le_refl _, ?_⟩
        have hlt : i * 60 < n * 60 := by omega
        have : i * 60 / n < 60 := Nat.div_lt_of_lt_mul hlt
        omega
      · have := ih (i + 1) _ hle' q hq
        exact ⟨le_trans hmono this.1, this.2⟩

theorem frameLoop_percents_chain (n : Nat)
    (classifyF : String → Except String (Option Pred)) (delOk : Nat → Bool) :
    ∀ (rest : List String) (i : Nat) (s : DecodeState), i + rest.length ≤ n →
      List.Chain' (· ≤ ·) (percents (frameLoop n classifyF delOk i rest s).2) := by
  intro rest
  induction rest with
  | nil =>
    intro i s _
    simp [frameLoop, percents]
  | cons uri rest ih =>
    intro i s hle
    have hle' : i + 1 + rest.length ≤ n := by
      simp only [List.length_cons] at hle
      omega
    cases hcl : tryFrame (classifyF uri) with
    | none =>
      rw [frameLoop_cons_none n classifyF delOk i uri rest s hcl]
      simp only [percents, List.filterMap_cons]
      exact ih (i + 1) s hle'
    | some p =>
      rw [frameLoop_cons_some n classifyF delOk i uri rest s p hcl]
      simp only [percents, List.filterMap_cons]
      rw [List.chain'_cons']
      refine ⟨?_, ih (i + 1) _ hle'⟩
      intro y hy
      have hmem := List.mem_of_mem_head? hy
      have hb := frameLoop_percents_bounds n classifyF delOk rest (i + 1) _ hle' y hmem
      have hmono : 30 + i * 60 / n ≤ 30 + (i + 1) * 60 / n := by
        have h60 : i * 60 ≤ (i + 1) * 60 := by omega
        have := Nat.div_le_div_right (c := n) h60
        omega
      exact le_trans hmono hb.1

theorem frameLoop_progress_present (n : Nat)
    (classifyF : String → Except String (Option Pred)) (delOk : Nat → Bool) :
    ∀ (rest : List String) (j i : Nat) (s : DecodeState)
      (hj : j < rest.length) (p : Pred),
      tryFrame (classifyF (rest.get ⟨j, hj⟩)) = some p →
      ∃ t, Event.progress (30 + (i + j) * 60 / n) (some p.letter) t ∈
        (frameLoop n classifyF delOk i rest s).2 := by
  intro rest
  induction rest with
  | nil =>
    intro j i s hj
    simp at hj
  | cons uri rest ih =>
    intro j i s hj p hp
    cases j with
    | zero =>
      have hp' : tryFrame (classifyF uri) = some p := hp
      rw [frameLoop_cons_some n classifyF delOk i uri rest s p hp']
      refine ⟨(stepFrame CONSISTENCY_FRAMES s (some p)).translatedText, ?_⟩
      have : i + 0 = i := by omega
      rw [this]
      exact List.mem_cons_of_mem _ (List.mem_cons_self _ _)
    | succ j =>
      have hj' : j < rest.length := by simpa using hj
      have hp' : tryFrame (classifyF (rest.get ⟨j, hj'⟩)) = some p := hp
      have harg : i + 1 + j = i + (j + 1) := by omega
      cases hcl : tryFrame (classifyF uri) with
      | none =>
        rw [frameLoop_cons_none n classifyF delOk i uri rest s hcl]
        obtain ⟨t, ht⟩ := ih j (i + 1) s hj' p hp'
        rw [harg] at ht
        exact ⟨t, List.mem_cons_of_mem _ (List.mem_cons_of_mem _ ht)⟩
      | some q =>
        rw [frameLoop_cons_some n classifyF delOk i uri rest s q hcl]
        obtain ⟨t, ht⟩ := ih j (i + 1) _ hj' p hp'
        rw [harg] at ht
        exact ⟨t, List.mem_cons_of_mem _
          (List.mem_cons_of_mem _ (List.mem_cons_of_mem _ ht))⟩

theorem frameLoop_state_delOk (n : Nat)
    (classifyF : String → Except String (Option Pred))
    (delOk delOk' : Nat → Bool) :
    ∀ (rest : List String) (i : Nat) (s : DecodeState),
      (frameLoop n classifyF delOk i rest s).1 =
        (frameLoop n classifyF delOk' i rest s).1 := by
  intro rest
  induction rest with
  | nil => intro i s; rfl
  | cons uri rest ih =>
    intro i s
    cases hcl : tryFrame (classifyF uri) with
    | none =>
      rw [frameLoop_cons_none n classifyF delOk i uri rest s hcl,
          frameLoop_cons_none n classifyF delOk' i uri rest s hcl]
      exact ih (i + 1) s
    | some p =>
      rw [frameLoop_cons_some n classifyF delOk i uri rest s p hcl,
          frameLoop_cons_some n classifyF delOk' i uri rest s p hcl]
      exact ih (i + 1) _

theorem frameLoop_delete_count (n : Nat)
    (classifyF : String → Except String (Option Pred)) (delOk : Nat → Bool) :
    ∀ (rest : List String) (i : Nat) (s : DecodeState) (j : Nat),
      List.countP (isDeleteFor j) (frameLoop n classifyF delOk i rest s).2 =
        if i ≤ j ∧ j < i + rest.length then 1 else 0 := by
  intro rest
  induction rest with
  | nil =>
    intro i s j
    simp only [frameLoop, List.countP_nil, List.length_nil]
    split
    · omega
    · rfl
  | cons uri rest ih =>
    intro i s j
    cases hcl : tryFrame (classifyF uri) with
    | none =>
      rw [frameLoop_cons_none n classifyF delOk i uri rest s hcl]
      simp [List.countP_cons, isDeleteFor_classify, isDeleteFor_delete,
        ih (i + 1) s j, List.length_cons, beq_iff_eq]
      split_ifs <;> omega
    | some p =>
      rw [frameLoop_cons_some n classifyF delOk i uri rest s p hcl]
      simp [List.countP_cons, isDeleteFor_classify, isDeleteFor_progress,
        isDeleteFor_delete, ih (i + 1) (stepFrame CONSISTENCY_FRAMES s (some p)) j,
        List.length_cons, beq_iff_eq]
      split_ifs <;> omega

theorem frameLoop_classify_then_delete (n : Nat)
    (classifyF : String → Except String (Option Pred)) (delOk : Nat → Bool) :
    ∀ (rest : List String) (i : Nat) (s : DecodeState) (j : Nat),
      i ≤ j → j < i + rest.length →
      List.Sublist [Event.classify j, Event.delete j (delOk j)]
        (frameLoop n classifyF delOk i rest s).2 := by
  intro rest
  induction rest with
  | nil =>
    intro i s j h1 h2
    simp only [List.length_nil] at h2
    omega
  | cons uri rest ih =>
    intro i s j h1 h2
    by_cases hij : i = j
    · subst hij
      cases hcl : tryFrame (classifyF uri) with
      | none =>
        rw [frameLoop_cons_none n classifyF delOk i uri rest s hcl]
        exact List.Sublist.cons₂ _ (List.Sublist.cons₂ _ (List.nil_sublist _))
      | some p =>
        rw [frameLoop_cons_some n classifyF delOk i uri rest s p hcl]
        exact List.Sublist.cons₂ _
          (List.Sublist.cons _ (List.Sublist.cons₂ _ (List.nil_sublist _)))
    · have hlt : i + 1 ≤ j := by omega
      have hlen : j < i + 1 + rest.length := by
        simp only [List.length_cons] at h2
        omega
      cases hcl : tryFrame (classifyF uri) with
      | none =>
        rw [frameLoop_cons_none n classifyF delOk i uri rest s hcl]
        exact List.Sublist.cons _ (List.Sublist.cons _ (ih (i + 1) s j hlt hlen))
      | some p =>
        rw [frameLoop_cons_some n classifyF delOk i uri rest s p hcl]
        exact List.Sublist.cons _ (List.Sublist.cons _ (List.Sublist.cons _
          (ih (i + 1) _ j hlt hlen)))

theorem frameLoop_head_classify (n : Nat)
    (classifyF : String → Except String (Option Pred)) (delOk : Nat → Bool)
    (i : Nat) (uri : String) (rest : List String) (s : DecodeState) :
    ∃ tail, (frameLoop n classifyF delOk i (uri :: rest) s).2 =
      Event.classify i :: tail := by
  cases hcl : tryFrame (classifyF uri) with
  | none =>
    rw [frameLoop_cons_none n classifyF delOk i uri rest s hcl]
    exact ⟨_, rfl⟩
  | some p =>
    rw [frameLoop_cons_some n classifyF delOk i uri rest s p hcl]
    exact ⟨_, rfl⟩

theorem frameLoop_delete_then_classify (n : Nat)
    (classifyF : String → Except String (Option Pred)) (delOk : Nat → Bool) :
    ∀ (rest : List String) (i : Nat) (s : DecodeState) (j : Nat),
      i ≤ j → j + 1 < i + rest.length →
      List.Sublist [Event.delete j (delOk j), Event.classify (j + 1)]
        (frameLoop n classifyF delOk i rest s).2 := by
  intro rest
  induction rest with
  | nil =>
    intro i s j h1 h2
    simp only [List.length_nil] at h2
    omega
  | cons uri rest ih =>
    intro i s j h1 h2
    by_cases hij : i = j
    · subst hij
      obtain ⟨u, rest', rfl⟩ : ∃ u r, rest = u :: r := by
        cases rest with
        | nil => simp only [List.length_cons, List.length_nil] at h2; omega
        | cons a b => exact ⟨a, b, rfl⟩
      cases hcl : tryFrame (classifyF uri) with
      | none =>
        rw [frameLoop_cons_none n classifyF delOk i uri (u :: rest') s hcl]
        obtain ⟨tail, htail⟩ := frameLoop_head_classify n classifyF delOk (i + 1) u rest' s
        rw [htail]
        exact List.Sublist.cons _ (List.Sublist.cons₂ _
          (List.Sublist.cons₂ _ (List.nil_sublist _)))
      | some p =>
        rw [frameLoop_cons_some n classifyF delOk i uri (u :: rest') s p hcl]
        obtain ⟨tail, htail⟩ := frameLoop_head_classify n classifyF delOk (i + 1) u rest' _
        rw [htail]
        exact List.Sublist.cons _ (List.Sublist.cons _ (List.Sublist.cons₂ _
          (List.Sublist.cons₂ _ (List.nil_sublist _))))
    · have hcond : i + 1 ≤ j := by omega
      have hlen : j + 1 < i + 1 + rest.length := by
        simp only [List.length_cons] at h2
        omega
      cases hcl : tryFrame (classifyF uri) with
      | none =>
        rw [frameLoop_cons_none n classifyF delOk i uri rest s hcl]
        exact List.Sublist.cons _ (List.Sublist.cons _ (ih (i + 1) s j hcond hlen))
      | some p =>
        rw [frameLoop_cons_some n classifyF delOk i uri rest s p hcl]
        exact List.Sublist.cons _ (List.Sublist.cons _ (List.Sublist.cons _
          (ih (i + 1) _ j hcond hlen)))

theorem percents_processVideo (thumb : Nat → Option String)
    (classifyF : String → Except String (Option Pred)) (delOk : Nat → Bool)
    (hne : extractFrames thumb ≠ []) :
    percents (processVideo true thumb classifyF delOk).2 =
      10 :: 30 ::
        (percents (frameLoop (extractFrames thumb).length classifyF delOk 0
            (extractFrames thumb) initState).2 ++ [100]) := by
  rw [processVideo_pos thumb classifyF delOk hne]
  simp [percents, List.filterMap_cons, List.filterMap_append]

/-- C6 (amended).  On every non-empty, non-failing run: the sequence of
percentages passed to `onProgress` (10, 30, the per-frame values, then 100)
is monotonically non-decreasing; the value 100 is passed exactly once, by the
final completion call, which is the last event of the run; and a per-frame
progress call is made once per frame whose classification yields a non-null
prediction — not once per processed frame as claimed, since a frame whose
classifier result is `null` produces no `onProgress` call at all. -/
theorem C6_progress_discipline (thumb : Nat → Option String)
    (classifyF : String → Except String (Option Pred)) (delOk : Nat → Bool)
    (hne : extractFrames thumb ≠ []) :
    List.Chain' (· ≤ ·) (percents (processVideo true thumb classifyF delOk).2)
    ∧ (percents (processVideo true thumb classifyF delOk).2).count 100 = 1
    ∧ (∃ t, (processVideo true thumb classifyF delOk).2.getLast? =
        some (Event.progress 100 none t))
    ∧ ∀ (j : Nat) (hj : j < (extractFrames thumb).length) (p : Pred),
        tryFrame (classifyF ((extractFrames thumb).get ⟨j, hj⟩)) = some p →
        ∃ t, Event.progress (30 + j * 60 / (extractFrames thumb).length)
            (some p.letter) t ∈ (processVideo true thumb classifyF delOk).2 := by
  have hb := frameLoop_percents_bounds (extractFrames thumb).length classifyF
    delOk (extractFrames thumb) 0 initState (by omega)
  refine ⟨?_, ?_, ?_, ?_⟩
  · rw [percents_processVideo thumb classifyF delOk hne]
    rw [List.chain'_cons]
    refine ⟨by norm_num, ?_⟩
    rw [List.chain'_cons']
    constructor
    · intro y hy
      have hmem := List.mem_of_mem_head? hy
      rcases List.mem_append.mp hmem with h | h
      · have h30 := (hb y h).1
        rw [Nat.zero_mul, Nat.zero_div] at h30
        omega
      · simp only [List.mem_singleton] at h
        omega
    · rw [List.chain'_append]
      refine ⟨frameLoop_percents_chain (extractFrames thumb).length classifyF
          delOk (extractFrames thumb) 0 initState (by omega), by simp, ?_⟩
      intro x hx y hy
      have hxm := List.mem_of_mem_getLast? hx
      have hx89 := (hb x hxm).2
      simp only [List.head?_cons, Option.mem_def, Option.some.injEq] at hy
      omega
  · rw [percents_processVideo thumb classifyF delOk hne]
    have hnotin : (100 : Nat) ∉ percents (frameLoop (extractFrames thumb).length
        classifyF delOk 0 (extractFrames thumb) initState).2 := by
      intro h
      have := (hb 100 h).2
      omega
    simp [List.count_cons, List.count_append, List.count_eq_zero.mpr hnotin]
  · rw [processVideo_pos thumb classifyF delOk hne]
    refine ⟨(frameLoop (extractFrames thumb).length classifyF delOk 0
        (extractFrames thumb) initState).1.translatedText, ?_⟩
    rw [show Event.progress 10 none "Extracting frames..." ::
        Event.progress 30 none "Processing frames..." ::
        ((frameLoop (extractFrames thumb).length classifyF delOk 0
            (extractFrames thumb) initState).2 ++
          [Event.progress 100 none (frameLoop (extractFrames thumb).length
            classifyF delOk 0 (extractFrames thumb) initState).1.translatedText]) =
        (Event.progress 10 none "Extracting frames..." ::
          Event.progress 30 none "Processing frames..." ::
          (frameLoop (extractFrames thumb).length classifyF delOk 0
            (extractFrames thumb) initState).2) ++
          [Event.progress 100 none (frameLoop (extractFrames thumb).length
            classifyF delOk 0 (extractFrames thumb) initState).1.translatedText]
      from by simp]
    exact List.getLast?_concat _
  · intro j hj p hp
    obtain ⟨t, ht⟩ := frameLoop_progress_present (extractFrames thumb).length
      classifyF delOk (extractFrames thumb) j 0 initState hj p hp
    rw [Nat.zero_add] at ht
    refine ⟨t, ?_⟩
    rw [processVideo_pos thumb classifyF delOk hne]
    exact List.mem_cons_of_mem _ (List.mem_cons_of_mem _ (List.mem_append_left _ ht))

/-- C6 counterexample: a one-frame video whose single frame classifies to
`null` (as every frame does with the shipped classifier).  The frame is
processed — its `classify` event is in the trace — yet the only `onProgress`
calls are the two startup calls (10, 30) and the completion call (100): no
per-frame invocation happens, against the claim's "at least once per
processed frame". -/
theorem C6_counterexample :
    (processVideo true (fun t => if t = 0 then some "u" else none)
        (fun _ => .ok none) (fun _ => true)).2 =
      [Event.progress 10 none "Extracting frames...",
       Event.progress 30 none "Processing frames...",
       Event.classify 0, Event.delete 0 true,
       Event.progress 100 none ""] := by
  decide

/-- C6 witness instance: the amended progress discipline on a concrete
two-frame video whose frames all classify to the letter `A`. -/
theorem C6_witness :
    List.Chain' (· ≤ ·) (percents (processVideo true
        (fun t => if t < 40 then some "w" else none)
        (fun _ => .ok (some ⟨"A", 9/10⟩)) (fun _ => true)).2)
    ∧ (percents (processVideo true (fun t => if t < 40 then some "w" else none)
        (fun _ => .ok (some ⟨"A", 9/10⟩)) (fun _ => true)).2).count 100 = 1
    ∧ (∃ t, (processVideo true (fun t => if t < 40 then some "w" else none)
        (fun _ => .ok (some ⟨"A", 9/10⟩)) (fun _ => true)).2.getLast? =
          some (Event.progress 100 none t))
    ∧ ∃ t, Event.progress
        (30 + 0 * 60 / (extractFrames (fun t => if t < 40 then some "w" else none)).length)
        (some "A") t ∈ (processVideo true (fun t => if t < 40 then some "w" else none)
          (fun _ => .ok (some ⟨"A", 9/10⟩)) (fun _ => true)).2 :=
  ⟨(C6_progress_discipline (fun t => if t < 40 then some "w" else none)
      (fun _ => .ok (some ⟨"A", 9/10⟩)) (fun _ => true) (by decide)).1,
   (C6_progress_discipline (fun t => if t < 40 then some "w" else none)
      (fun _ => .ok (some ⟨"A", 9/10⟩)) (fun _ => true) (by decide)).2.1,
   (C6_progress_discipline (fun t => if t < 40 then some "w" else none)
      (fun _ => .ok (some ⟨"A", 9/10⟩)) (fun _ => true) (by decide)).2.2.1,
   (C6_progress_discipline (fun t => if t < 40 then some "w" else none)
      (fun _ => .ok (some ⟨"A", 9/10⟩)) (fun _ => true) (by decide)).2.2.2
     0 (by decide) ⟨"A", 9/10⟩ rfl⟩

/-- C8.  On every non-empty run, each iterated frame `j` has exactly one
deletion attempt in the trace; that deletion follows frame `j`'s
classification (for every classifier outcome, including failure, which
`tryFrame` has already absorbed into `null`) and precedes frame `j + 1`'s
classification; and the deletion outcomes are irrelevant to the result: two
runs differing only in their deletion-success oracles return the same
value. -/
theorem C8_frame_release (thumb : Nat → Option String)
    (classifyF : String → Except String (Option Pred))
    (delOk delOk' : Nat → Bool) (hne : extractFrames thumb ≠ []) :
    (∀ j, j < (extractFrames thumb).length →
        List.countP (isDeleteFor j) (processVideo true thumb classifyF delOk).2 = 1
        ∧ List.Sublist [Event.classify j, Event.delete j (delOk j)]
            (processVideo true thumb classifyF delOk).2)
    ∧ (∀ j, j + 1 < (extractFrames thumb).length →
        List.Sublist [Event.delete j (delOk j), Event.classify (j + 1)]
          (processVideo true thumb classifyF delOk).2)
    ∧ (processVideo true thumb classifyF delOk).1 =
        (processVideo true thumb classifyF delOk').1 := by
  refine ⟨?_, ?_, ?_⟩
  · intro j hj
    constructor
    · rw [processVideo_pos thumb classifyF delOk hne]
      simp only [List.countP_cons, List.countP_append, isDeleteFor_progress,
        frameLoop_delete_count (extractFrames thumb).length classifyF delOk
          (extractFrames thumb) 0 initState j]
      simp
      omega
    · rw [processVideo_pos thumb classifyF delOk hne]
      refine List.Sublist.cons _ (List.Sublist.cons _ ?_)
      exact (frameLoop_classify_then_delete (extractFrames thumb).length
        classifyF delOk (extractFrames thumb) 0 initState j (by omega)
        (by omega)).trans (List.sublist_append_left _ _)
  · intro j hj
    rw [processVideo_pos thumb classifyF delOk hne]
    refine List.Sublist.cons _ (List.Sublist.cons _ ?_)
    exact (frameLoop_delete_then_classify (extractFrames thumb).length
      classifyF delOk (extractFrames thumb) 0 initState j (by omega)
      (by omega)).trans (List.sublist_append_left _ _)
  · rw [processVideo_pos thumb classifyF delOk hne,
        processVideo_pos thumb classifyF delOk' hne]
    simp only []
    rw [frameLoop_state_delOk (extractFrames thumb).length classifyF delOk delOk'
      (extractFrames thumb) 0 initState]

/-- C8 witness instance: on a concrete two-frame video, frame 0 is deleted
exactly once, after its classification and before frame 1's classification,
and flipping every deletion outcome from success to failure leaves the
returned transcript unchanged. -/
theorem C8_witness :
    (List.countP (isDeleteFor 0) (processVideo true
        (fun t => if t < 40 then some "w" else none)
        (fun _ => .ok (some ⟨"A", 9/10⟩)) (fun _ => true)).2 = 1
     ∧ List.Sublist [Event.classify 0, Event.delete 0 true]
        (processVideo true (fun t => if t < 40 then some "w" else none)
          (fun _ => .ok (some ⟨"A", 9/10⟩)) (fun _ => true)).2)
    ∧ List.Sublist [Event.delete 0 true, Event.classify 1]
        (processVideo true (fun t => if t < 40 then some "w" else none)
          (fun _ => .ok (some ⟨"A", 9/10⟩)) (fun _ => true)).2
    ∧ (processVideo true (fun t => if t < 40 then some "w" else none)
        (fun _ => .ok (some ⟨"A", 9/10⟩)) (fun _ => true)).1 =
      (processVideo true (fun t => if t < 40 then some "w" else none)
        (fun _ => .ok (some ⟨"A", 9/10⟩)) (fun _ => false)).1 :=
  ⟨(C8_frame_release (fun t => if t < 40 then some "w" else none)
      (fun _ => .ok (some ⟨"A", 9/10⟩)) (fun _ => true) (fun _ => false)
      (by decide)).1 0 (by decide),
   (C8_frame_release (fun t => if t < 40 then some "w" else none)
      (fun _ => .ok (some ⟨"A", 9/10⟩)) (fun _ => true) (fun _ => false)
      (by decide)).2.1 0 (by decide),
   (C8_frame_release (fun t => if t < 40 then some "w" else none)
      (fun _ => .ok (some ⟨"A", 9/10⟩)) (fun _ => true) (fun _ => false)
      (by decide)).2.2⟩

end SignLang
